import Mathlib

/-
Verification development for the line-translator-bot normalization engine
(src/main.py).  Strings are modelled as `List Char`.  The character model
covers the alphabet actually used by the program's tables and inputs:
ASCII letters/digits/punctuation and CJK ideographs; Python's `\w` is
modelled as ASCII alphanumerics, underscore and CJK ideographs, and
Python's `\s` / `str.strip` whitespace as the ASCII whitespace characters
plus U+00A0 and U+3000.  The regular expressions of the source are
hand-compiled into matchers that reproduce Python `re` semantics
(leftmost scan, ordered alternation, greedy quantifiers with the
backtracking actually reachable for these patterns).  External
collaborators (langdetect, the Google and OpenAI translation providers)
are modelled as oracle parameters.
-/

set_option maxRecDepth 40000

namespace LineBot

/-! ## Character model -/

def asciiLower (c : Char) : Char :=
  if 'A' ≤ c ∧ c ≤ 'Z' then Char.ofNat (c.toNat + 32) else c

def isDigitA (c : Char) : Bool := decide ('0' ≤ c ∧ c ≤ '9')

def digitVal (c : Char) : Nat := c.toNat - 48

def isAsciiAlpha (c : Char) : Bool :=
  decide ('a' ≤ c ∧ c ≤ 'z') || decide ('A' ≤ c ∧ c ≤ 'Z')

/-- The basic CJK Unified Ideographs block U+4E00..U+9FFF: exactly the
range tested by `detect_language`'s regex `[一-鿿]`. -/
def isCJKbasic (c : Char) : Bool :=
  decide (0x4e00 ≤ c.toNat ∧ c.toNat ≤ 0x9fff)

/-- CJK ideographs including the Extension blocks (used for the word-char
model and to state claim C7's notion of "CJK ideograph"). -/
def isCJKideo (c : Char) : Bool :=
  isCJKbasic c || decide (0x3400 ≤ c.toNat ∧ c.toNat ≤ 0x4dbf) ||
  decide (0x20000 ≤ c.toNat ∧ c.toNat ≤ 0x3134f) ||
  decide (0xf900 ≤ c.toNat ∧ c.toNat ≤ 0xfad9)

/-- Python `\w` restricted to the modelled alphabet. -/
def isWordChar (c : Char) : Bool :=
  isAsciiAlpha c || isDigitA c || decide (c = '_') || isCJKideo c

def wsChars : List Char :=
  [' ', '\t', '\n', '\r', Char.ofNat 11, Char.ofNat 12,
   Char.ofNat 0xa0, Char.ofNat 0x3000]

def isPyWS (c : Char) : Bool := wsChars.contains c

/-- Terminal punctuation accepted by `polish_chinese`'s regex `[。！？]$`. -/
def termChars : List Char := ['。', '！', '？']

/-! ## String helpers -/

def lowerAll (s : List Char) : List Char := s.map asciiLower

/-- `int()` of a decimal digit string. -/
def natOfDigits (s : List Char) : Nat :=
  s.foldl (fun a c => 10 * a + digitVal c) 0

def digitChar (n : Nat) : Char := Char.ofNat (48 + n)

def natDecRev (fuel n : Nat) : List Char :=
  match fuel with
  | 0 => []
  | f + 1 => if n < 10 then [digitChar n]
             else digitChar (n % 10) :: natDecRev f (n / 10)

/-- Decimal digits of a natural number, most significant first. -/
def natToDec (n : Nat) : List Char := (natDecRev (n + 1) n).reverse

/-- Python `f"{n:02d}"`. -/
def pad2 (n : Nat) : List Char :=
  let s := natToDec n
  if s.length = 1 then '0' :: s else s

/-- Python `str.strip()`: trailing whitespace removed, then leading. -/
def pyStrip (s : List Char) : List Char :=
  ((s.reverse.dropWhile isPyWS).reverse).dropWhile isPyWS

/-- Whether `pat` occurs as a contiguous substring of `s`. -/
def occursIn (pat : List Char) : List Char → Bool
  | [] => pat.isEmpty
  | c :: cs => pat.isPrefixOf (c :: cs) || occursIn pat cs

/-- Python `str.replace(pat, rep)` (all occurrences, left to right,
non-overlapping); `fuel` is instantiated with the string length.  The
source only ever calls it with non-empty patterns. -/
def replaceAllAux (pat rep : List Char) : Nat → List Char → List Char
  | 0, s => s
  | _ + 1, [] => []
  | n + 1, c :: cs =>
    if !pat.isEmpty && pat.isPrefixOf (c :: cs) then
      rep ++ replaceAllAux pat rep n ((c :: cs).drop pat.length)
    else
      c :: replaceAllAux pat rep n cs

def pyReplace (pat rep s : List Char) : List Char :=
  replaceAllAux pat rep s.length s

/-- Case-insensitive (ASCII fold) literal match at the start of `s`;
returns the remaining text. -/
def stripLitCI : List Char → List Char → Option (List Char)
  | [], s => some s
  | _ :: _, [] => none
  | l :: ls, c :: cs =>
    if asciiLower c = asciiLower l then stripLitCI ls cs else none

def optWord : Option Char → Bool
  | none => false
  | some c => isWordChar c

/-- Python `\b` between two (possibly absent) characters. -/
def boundary (a b : Option Char) : Bool := optWord a != optWord b

/-- Maximal runs of ASCII letters: `re.findall(r'[A-Za-z]+', s)`. -/
def letterRunsAux : Nat → List Char → List (List Char)
  | 0, _ => []
  | _ + 1, [] => []
  | fuel + 1, c :: cs =>
    if isAsciiAlpha c then
      ((c :: cs).takeWhile isAsciiAlpha) ::
        letterRunsAux fuel ((c :: cs).dropWhile isAsciiAlpha)
    else
      letterRunsAux fuel cs

def letterRuns (s : List Char) : List (List Char) := letterRunsAux s.length s

/-! ## `re.sub` driver

A matcher receives the character preceding the current position (for
`\b`) and the rest of the text, and returns the replacement together
with the number of characters consumed (always ≥ 1 for the patterns of
this program).  `gsubAux` scans left to right, emitting unmatched
characters unchanged and resuming after each match, exactly like
`re.sub`; the fuel is instantiated with the text length. -/

def gsubAux (m : Option Char → List Char → Option (List Char × Nat)) :
    Nat → Option Char → List Char → List Char
  | 0, _, s => s
  | _ + 1, _, [] => []
  | n + 1, prev, c :: cs =>
    match m prev (c :: cs) with
    | some (rep, k) =>
      if k = 0 then c :: gsubAux m n (some c) cs
      else rep ++ gsubAux m n (((c :: cs).take k).getLast?) ((c :: cs).drop k)
    | none => c :: gsubAux m n (some c) cs

def pySubst (m : Option Char → List Char → Option (List Char × Nat))
    (s : List Char) : List Char :=
  gsubAux m s.length none s

/-! ## Lexicon (`indonesian_abbreviation_map`), in source (dict) order -/

def abbrevPairs : List (List Char × List Char) := [
  ("ad".data, "弟弟".data),
  ("adik".data, "弟弟".data),
  ("kak".data, "哥哥".data),
  ("ce".data, "姐姐".data),
  ("cece".data, "姐姐".data),
  ("ibu".data, "媽媽".data),
  ("bpk".data, "先生".data),
  ("ayah".data, "爸爸".data),
  ("nenek".data, "奶奶".data),
  ("kakek".data, "爺爺".data),
  ("cucu".data, "孫子".data),
  ("tmn".data, "朋友".data),
  ("tm".data, "他們".data),
  ("sy".data, "我".data),
  ("aku".data, "我".data),
  ("saya".data, "我".data),
  ("kmu".data, "你".data),
  ("km".data, "你".data),
  ("anda".data, "您".data),
  ("dy".data, "他/她".data),
  ("dia".data, "他/她".data),
  ("dya".data, "他/她".data),
  ("pagi".data, "早上".data),
  ("siang".data, "中午".data),
  ("sore".data, "下午".data),
  ("malam".data, "晚上".data),
  ("bsk".data, "明天".data),
  ("besok".data, "明天".data),
  ("kmrn".data, "昨天".data),
  ("kemarin".data, "昨天".data),
  ("td".data, "剛才".data),
  ("tdi".data, "剛才".data),
  ("nanti".data, "等一下".data),
  ("udh".data, "已經".data),
  ("sudah".data, "已經".data),
  ("blm".data, "還沒".data),
  ("belum".data, "還沒".data),
  ("hr".data, "假期".data),
  ("hari".data, "天".data),
  ("jam".data, "pukul".data),
  ("pagi2".data, "早上早點".data),
  ("siang2".data, "中午時候".data),
  ("makan".data, "吃".data),
  ("mkn".data, "吃".data),
  ("minum".data, "喝".data),
  ("mandi".data, "洗澡".data),
  ("mandikan".data, "幫洗澡".data),
  ("ganti".data, "換".data),
  ("tidur".data, "睡覺".data),
  ("t".data, "tidur".data),
  ("bangun".data, "起床".data),
  ("temani".data, "陪".data),
  ("pulang".data, "回家".data),
  ("bantu".data, "幫忙".data),
  ("rehabilitas".data, "復健".data),
  ("bersih".data, "打掃".data),
  ("cuci".data, "洗".data),
  ("masak".data, "煮".data),
  ("masaknya".data, "煮的".data),
  ("masukan".data, "放進".data),
  ("potong".data, "切".data),
  ("lihat".data, "看見".data),
  ("lihat2".data, "看看".data),
  ("pegang".data, "拿著".data),
  ("tutup".data, "關上".data),
  ("buka".data, "打開".data),
  ("aj".data, "aja".data),
  ("ajh".data, "aja".data),
  ("aja".data, "就好".data),
  ("deh".data, "就這樣吧".data),
  ("bwt".data, "buat".data),
  ("buat".data, "為了".data),
  ("jg".data, "juga".data),
  ("jgk".data, "juga".data),
  ("jga".data, "juga".data),
  ("jdi".data, "jadi".data),
  ("jd".data, "jadi".data),
  ("kl".data, "kalau".data),
  ("klw".data, "kalau".data),
  ("klo".data, "kalau".data),
  ("krn".data, "karena".data),
  ("karna".data, "karena".data),
  ("iya".data, "ya".data),
  ("lya".data, "是的".data),
  ("yaudah".data, "好啦".data),
  ("ywdh".data, "好啦".data),
  ("ngga".data, "不".data),
  ("ga".data, "不".data),
  ("gk".data, "不".data),
  ("nggak".data, "不".data),
  ("nggaaa".data, "不".data),
  ("gt".data, "gitu".data),
  ("gtu".data, "gitu".data),
  ("gitu".data, "那樣".data),
  ("gtw".data, "不知道".data),
  ("sm".data, "sama".data),
  ("sm2".data, "sama-sama".data),
  ("trs".data, "terus".data),
  ("trus".data, "terus".data),
  ("sja".data, "saja".data),
  ("sllu".data, "selalu".data),
  ("skrg".data, "現在".data),
  ("dr".data, "醫生".data),
  ("dok".data, "醫生".data),
  ("tp".data, "tapi".data),
  ("tpi".data, "tapi".data),
  ("tapi".data, "但是".data),
  ("ok".data, "好".data),
  ("okee".data, "好喔".data),
  ("okey".data, "好喔".data),
  ("sip".data, "好".data),
  ("mantap".data, "太棒了".data),
  ("btw".data, "順便說一下".data),
  ("rumah".data, "家".data),
  ("rmh".data, "家".data),
  ("pintu".data, "門口".data),
  ("dpn".data, "前面".data),
  ("belakang".data, "後面".data),
  ("mobil".data, "車".data),
  ("motor".data, "摩托車".data),
  ("uang".data, "錢".data),
  ("sayur".data, "蔬菜".data),
  ("beras".data, "米".data),
  ("air".data, "水".data),
  ("kursi".data, "椅子".data),
  ("meja".data, "桌子".data),
  ("dapur".data, "廚房".data),
  ("kamar".data, "房間".data),
  ("tempat tidur".data, "床".data),
  ("jendela".data, "窗戶".data),
  ("halaman".data, "院子".data),
  ("bca".data, "銀行".data),
  ("pt".data, "有限公司".data),
  ("sd".data, "小學".data),
  ("smp".data, "初中".data),
  ("smk".data, "中等職業學校".data),
  ("tk".data, "幼兒園".data),
  ("rt".data, "居民社區".data),
  ("rw".data, "社區範圍".data),
  ("kkn".data, "社會服務".data),
  ("tni".data, "印度尼西亞國軍".data),
  ("polri".data, "印度尼西亞警察".data),
  ("wfh".data, "在家工作".data),
  ("wfo".data, "辦公室工作".data),
  ("umkm".data, "微型企業".data),
  ("wmm".data, "微型企業".data),
  ("faq".data, "常見問題".data),
  ("bkn".data, "不是".data),
  ("bsa".data, "bisa".data),
  ("bisa".data, "可以".data),
  ("saja".data, "就好".data),
  ("karena".data, "因為".data),
  ("krg".data, "少".data),
  ("susa".data, "susah".data),
  ("habis".data, "吃完".data),
  ("selesai".data, "結束".data),
  ("sayang".data, "親愛的".data),
  ("syg".data, "親愛的".data),
  ("gpp".data, "沒關係".data),
  ("nd".data, "下屬".data),
  ("orang".data, "人".data),
  ("wkwk".data, "哈哈".data),
  ("haha".data, "哈哈".data),
  ("hehe".data, "呵呵".data),
  ("loh".data, "呀".data),
  ("lah".data, "啦".data),
  ("nih".data, "這個".data),
  ("dong".data, "啦".data),
  ("kok".data, "怎麼會".data),
  ("lohkok".data, "怎麼啦".data),
  ("lho".data, "呢".data),
  ("dehh".data, "就這樣吧".data),
  ("bt".data, "生氣".data),
  ("pd".data, "自信".data),
  ("pls".data, "請".data),
  ("thx".data, "謝謝".data),
  ("makasih".data, "謝謝".data),
  ("terima kasih".data, "謝謝".data),
  ("okelah".data, "好吧".data),
  ("gapapa".data, "沒事".data),
  ("okeeh".data, "好喔".data),
  ("mantul".data, "很棒".data)
]

def abbrevKeys : List (List Char) := abbrevPairs.map Prod.fst

/-- Dict lookup (`indonesian_abbreviation_map.get`). Keys are unique. -/
def mapGet (k : List Char) : Option (List Char) :=
  (abbrevPairs.find? (fun kv => kv.1 == k)).map Prod.snd

/-- `sorted(keys, key=lambda k: -len(k))`: stable sort by descending
length (the maximal key length is 12). -/
def keys_sorted : List (List Char) :=
  ((List.range 13).reverse.map
    (fun n => abbrevKeys.filter (fun k => k.length == n))).flatten

/-- Try the alternation branches of `\b(k1|k2|...)\b` in order at the
current position: a branch succeeds when it is a case-insensitive prefix
of the text and the trailing `\b` holds after the matched characters.
On success the replacement is the dict value of the lowercased matched
text (`m.group(0).lower()`), defaulting to the matched text. -/
def matchAbbrevKeys : List (List Char) → List Char → Option (List Char × Nat)
  | [], _ => none
  | k :: ks, s =>
    match stripLitCI k s with
    | some rest =>
      if boundary ((s.take k.length).getLast?) rest.head? then
        let matched := s.take k.length
        some ((mapGet (lowerAll matched)).getD matched, k.length)
      else matchAbbrevKeys ks s
    | none => matchAbbrevKeys ks s

def matchAbbrev (prev : Option Char) (s : List Char) :
    Option (List Char × Nat) :=
  if boundary prev s.head? then matchAbbrevKeys keys_sorted s else none

def expand_abbreviations (text : List Char) : List Char :=
  pySubst matchAbbrev text

/-! ## Chinese polisher (`chinese_polish_map`, `polish_chinese`) -/

def polishPairs : List (List Char × List Char) :=
  [("謝謝你".data, "謝謝。".data),
   ("好的".data, "好。".data),
   ("是啊姐姐".data, "好的姐姐。".data),
   ("ok".data, "好。".data)]

def endsTerm (s : List Char) : Bool :=
  match s.getLast? with
  | some c => termChars.contains c
  | none => false

def polish_chinese (text : List Char) : List Char :=
  let t := polishPairs.foldl (fun acc kv => pyReplace kv.1 kv.2 acc) text
  if endsTerm (pyStrip t) then t else pyStrip t ++ "。".data

/-! ## Language classifier (`detect_language`)

The `langdetect` call of step 4 is an oracle parameter `ld`;
`ld t = none` models `LangDetectException`.  The function returns the
detected language label (the Python function also returns the unchanged
input text alongside it). -/

def hasCJKbasic (s : List Char) : Bool := s.any isCJKbasic

def kwLits : List (List Char) :=
  List.map String.data
    ["saya", "aku", "makan", "tidur", "pagi", "selamat", "terima kasih",
     "kamu", "kmu", "mkn", "udh"]

def kwMatchHere (prev : Option Char) (s : List Char) : List (List Char) → Bool
  | [] => false
  | lit :: ls =>
    (match stripLitCI lit s with
     | some rest =>
       boundary prev s.head? && boundary ((s.take lit.length).getLast?) rest.head?
     | none => false)
    || kwMatchHere prev s ls

/-- `re.search(r'\b(saya|aku|...)\b', t)` on already-lowercased text. -/
def kwSearch (prev : Option Char) : List Char → Bool
  | [] => false
  | c :: cs => kwMatchHere prev (c :: cs) kwLits || kwSearch (some c) cs

def tokensInMap (t : List Char) : Bool :=
  (letterRuns (lowerAll t)).any (fun tok => (mapGet tok).isSome)

def detect_language (ld : List Char → Option (List Char))
    (text : List Char) : Option (List Char) :=
  let t := pyStrip text
  if t.isEmpty then none
  else if hasCJKbasic t then some ("chinese".data)
  else if tokensInMap t then some ("indonesian".data)
  else if kwSearch none (lowerAll t) then some ("indonesian".data)
  else
    match ld t with
    | some detected =>
      let dl := lowerAll detected
      if dl = "id".data ∨ dl = "in".data ∨ dl = "ms".data then
        some ("indonesian".data)
      else if ("zh".data).isPrefixOf dl then some ("chinese".data)
      else some detected
    | none => none


/-! ## Time normalizer (`convert_jam_to_hhmm`)

The three patterns of the source are hand-compiled.  Alternatives are
tried in the regex's backtracking order; quantifiers whose maximal munch
can never steal characters from the continuation (`\s*` before digits or
letters, `\d*`/`\d+` before `.` or `\b`) are matched maximally. -/

inductive Period where
  | pagi | siang | sore | malam | am | pm | amd | pmd
deriving DecidableEq, Repr

/-- The eight alternatives of `(pagi|siang|sore|malam|am|pm|a\.m\.|p\.m\.)`
in regex order, each with its final character (for the trailing `\b`). -/
def periodAlts : List (List Char × Char × Period) :=
  [("pagi".data, 'i', .pagi), ("siang".data, 'g', .siang),
   ("sore".data, 'e', .sore), ("malam".data, 'm', .malam),
   ("am".data, 'm', .am), ("pm".data, 'm', .pm),
   ("a.m.".data, '.', .amd), ("p.m.".data, '.', .pmd)]

def matchPeriodWordIn : List (List Char × Char × Period) → List Char →
    Option (Period × List Char)
  | [], _ => none
  | (lit, lastc, p) :: alts, s =>
    match stripLitCI lit s with
    | some rest =>
      if boundary (some lastc) rest.head? then some (p, rest)
      else matchPeriodWordIn alts s
    | none => matchPeriodWordIn alts s

def matchPeriodWord (s : List Char) : Option (Period × List Char) :=
  matchPeriodWordIn periodAlts s

/-- Python `round` (round half to even, as on the exact rationals the
float arithmetic of the source computes with here): `a / b` rounded. -/
def divRoundHalfEven (a b : Nat) : Nat :=
  let q := a / b
  let r := a % b
  if 2 * r < b then q
  else if b < 2 * r then q + 1
  else if q % 2 = 0 then q else q + 1

/-- `int(round(float(intpart.fracpart) * 60))`, computed exactly. -/
def minuteOfDecimal (ds fs : List Char) : Nat :=
  divRoundHalfEven (natOfDigits (ds ++ fs) * 60) (10 ^ fs.length)

/-- `to_24` of the source: hour taken mod 24, then period adjustment;
the minute is echoed into `f"{h:02d}:{m:02d}"` unchecked. -/
def adjustHour (h : Nat) (period : Option Period) : Nat :=
  let h := h % 24
  match period with
  | none => h
  | some p =>
    let h := if (p = .sore ∨ p = .malam ∨ p = .pm ∨ p = .pmd) ∧ h < 12
             then h + 12 else h
    if (p = .pagi ∨ p = .am ∨ p = .amd) ∧ h = 12 then 0 else h

def to_24 (h m : Nat) (period : Option Period) : List Char :=
  pad2 (adjustHour h period) ++ ':' :: pad2 m

/-- `\s*(pagi|...)\b` after the optional minute group: the period words
start with letters, so `\s*` is maximal. -/
def perAfterMin (m : Nat) (s : List Char) : Option (Nat × Period × List Char) :=
  match matchPeriodWord (s.dropWhile isPyWS) with
  | some (p, rest) => some (m, p, rest)
  | none => none

/-- The minute group `(\d{1,2}|\d*\.\d+)` of the period pattern, each
branch followed by the period continuation; `repl_period` turns a
dot-free minute field into `int(minpart)` and a dotted one into
`round(float(minpart) * 60)`. -/
def perMinAlts (s : List Char) : Option (Nat × Period × List Char) :=
  (match s with
   | a :: b :: s3 =>
     if isDigitA a && isDigitA b then
       perAfterMin (10 * digitVal a + digitVal b) s3
     else none
   | _ => none)
  <|>
  (match s with
   | a :: s3 => if isDigitA a then perAfterMin (digitVal a) s3 else none
   | _ => none)
  <|>
  (let ds := s.takeWhile isDigitA
   match s.dropWhile isDigitA with
   | '.' :: s3 =>
     let fs := s3.takeWhile isDigitA
     if fs.isEmpty then none
     else perAfterMin (minuteOfDecimal ds fs) (s3.dropWhile isDigitA)
   | _ => none)

/-- `(?:[:.,](minute))?\s*(period)\b` after the hour: the group is tried
present first (greedy `?`), then absent with minute 0. -/
def perPatAfterHour (s : List Char) : Option (Nat × Period × List Char) :=
  (match s with
   | c :: s2 =>
     if c = ':' ∨ c = '.' ∨ c = ',' then perMinAlts s2 else none
   | [] => none)
  <|> perAfterMin 0 s

/-- The whole period pattern
`\bjam\s*(\d{1,2})(?:[:.,](\d{1,2}|\d*\.\d+))?\s*(period)\b` at one
position, hour tried with two digits first. -/
def matchPeriodPat (prev : Option Char) (s : List Char) :
    Option (List Char × Nat) :=
  if !boundary prev s.head? then none
  else
    match stripLitCI ("jam".data) s with
    | none => none
    | some s1 =>
      let s2 := s1.dropWhile isPyWS
      let afterHour :=
        (match s2 with
         | a :: b :: s3 =>
           if isDigitA a && isDigitA b then
             (perPatAfterHour s3).map (fun r => (10 * digitVal a + digitVal b, r))
           else none
         | _ => none)
        <|>
        (match s2 with
         | a :: s3 =>
           if isDigitA a then (perPatAfterHour s3).map (fun r => (digitVal a, r))
           else none
         | _ => none)
      match afterHour with
      | some (h, m, p, rest) => some (to_24 h m (some p), s.length - rest.length)
      | none => none

/-- `\d*\.\d+\b` at the start of `t`, returning the computed minute. -/
def fracTail (t : List Char) : Option (Nat × List Char) :=
  let ds := t.takeWhile isDigitA
  match t.dropWhile isDigitA with
  | '.' :: s3 =>
    let fs := s3.takeWhile isDigitA
    if fs.isEmpty then none
    else
      let rest := s3.dropWhile isDigitA
      if boundary (some (fs.getLastD '0')) rest.head? then
        some (minuteOfDecimal ds fs, rest)
      else none
  | _ => none

/-- The decimal pattern `\bjam\s*(\d{1,2})\s*[.,]?\s*(\d*\.\d+)\b`:
the optional separator is tried consumed first, then skipped. -/
def matchDecimalPat (prev : Option Char) (s : List Char) :
    Option (List Char × Nat) :=
  if !boundary prev s.head? then none
  else
    match stripLitCI ("jam".data) s with
    | none => none
    | some s1 =>
      let s2 := s1.dropWhile isPyWS
      let afterHour : Option (Nat × Nat × List Char) :=
        (match s2 with
         | a :: b :: s3 =>
           if isDigitA a && isDigitA b then
             (decTail s3).map (fun r => (10 * digitVal a + digitVal b, r))
           else none
         | _ => none)
        <|>
        (match s2 with
         | a :: s3 =>
           if isDigitA a then (decTail s3).map (fun r => (digitVal a, r))
           else none
         | _ => none)
      match afterHour with
      | some (h, m, rest) => some (to_24 h m none, s.length - rest.length)
      | none => none
where
  decTail (s3 : List Char) : Option (Nat × List Char) :=
    let s4 := s3.dropWhile isPyWS
    (match s4 with
     | c :: s5 =>
       if c = '.' ∨ c = ',' then fracTail (s5.dropWhile isPyWS) else none
     | [] => none)
    <|> fracTail s4

/-- The basic pattern `\bjam\s*(\d{1,2})(?:[:.,](\d{1,2}))?\b`:
minute group tried with two digits, one digit, then absent, each followed
by the trailing `\b`. -/
def matchBasicPat (prev : Option Char) (s : List Char) :
    Option (List Char × Nat) :=
  if !boundary prev s.head? then none
  else
    match stripLitCI ("jam".data) s with
    | none => none
    | some s1 =>
      let s2 := s1.dropWhile isPyWS
      let afterHour : Option (Nat × Nat × List Char) :=
        (match s2 with
         | a :: b :: s3 =>
           if isDigitA a && isDigitA b then
             (basTail b s3).map (fun r => (10 * digitVal a + digitVal b, r))
           else none
         | _ => none)
        <|>
        (match s2 with
         | a :: s3 =>
           if isDigitA a then (basTail a s3).map (fun r => (digitVal a, r))
           else none
         | _ => none)
      match afterHour with
      | some (h, m, rest) => some (to_24 h m none, s.length - rest.length)
      | none => none
where
  basTail (hLast : Char) (s3 : List Char) : Option (Nat × List Char) :=
    (match s3 with
     | c :: s4 =>
       if c = ':' ∨ c = '.' ∨ c = ',' then
         (match s4 with
          | a :: b :: s5 =>
            if isDigitA a && isDigitA b && boundary (some b) s5.head? then
              some (10 * digitVal a + digitVal b, s5)
            else none
          | _ => none)
         <|>
         (match s4 with
          | a :: s5 =>
            if isDigitA a && boundary (some a) s5.head? then
              some (digitVal a, s5)
            else none
          | _ => none)
       else none
     | [] => none)
    <|>
    (if boundary (some hLast) s3.head? then some (0, s3) else none)

/-- The three `re.sub` passes of `convert_jam_to_hhmm`, in source order. -/
def convert_jam_to_hhmm (text : List Char) : List Char :=
  let text := pySubst matchPeriodPat text
  let text := pySubst matchDecimalPat text
  pySubst matchBasicPat text


/-! ## `preprocess_text` -/

/-- `re.sub(r'(\d{1,2})點(\d{1,2})', r'\1:\2', text)`: the matched digit
fields are echoed verbatim around `:`. -/
def matchDotHM (_prev : Option Char) (s : List Char) :
    Option (List Char × Nat) :=
  let tail2 : List Char → Option (List Char × Nat) := fun t =>
    match t with
    | a :: b :: r =>
      if isDigitA a && isDigitA b then some ([a, b], (r.length : Nat))
      else if isDigitA a then some ([a], ((b :: r).length : Nat))
      else none
    | [a] => if isDigitA a then some ([a], 0) else none
    | [] => none
  let withHour : List Char → List Char → Option (List Char × Nat) := fun hd t =>
    match t with
    | '點' :: r =>
      match tail2 r with
      | some (md, restLen) => some (hd ++ ':' :: md, s.length - restLen)
      | none => none
    | _ => none
  match s with
  | a :: b :: r =>
    if isDigitA a && isDigitA b then
      match withHour [a, b] r with
      | some res => some res
      | none => if isDigitA a then withHour [a] (b :: r) else none
    else if isDigitA a then withHour [a] (b :: r)
    else none
  | [a] => if isDigitA a then withHour [a] [] else none
  | [] => none

/-- `re.sub(r'(\d{1,2})點\b', r'\1:00', text)`; `點` is a word character,
so the trailing `\b` needs a following non-word character or the end. -/
def matchDotH (_prev : Option Char) (s : List Char) :
    Option (List Char × Nat) :=
  let withHour : List Char → List Char → Option (List Char × Nat) := fun hd t =>
    match t with
    | '點' :: r =>
      if boundary (some '點') r.head? then
        some (hd ++ ':' :: '0' :: ['0'], s.length - r.length)
      else none
    | _ => none
  match s with
  | a :: b :: r =>
    if isDigitA a && isDigitA b then
      match withHour [a, b] r with
      | some res => some res
      | none => if isDigitA a then withHour [a] (b :: r) else none
    else if isDigitA a then withHour [a] (b :: r)
    else none
  | [a] => if isDigitA a then withHour [a] [] else none
  | [] => none

def preprocess_text (text : List Char) (lang : List Char) : List Char :=
  if lang = "indonesian".data then
    let text := pySubst matchDotHM text
    let text := pySubst matchDotH text
    let text := convert_jam_to_hhmm text
    expand_abbreviations text
  else text

/-! ## Translation dispatcher (`translate_cached`)

The external engine (deep-translator's `GoogleTranslator.translate`) is
an oracle `g source target text`; `Except.error` models a raised
exception.  The whole body of `translate_cached` runs inside
`try/except`, so the function is total (never raises) and returns the
fixed sentinel on any engine exception.  The `lru_cache` decoration is
modelled separately (`translate_cached_lru`); the wrapped body is
deterministic, so caching never changes the returned value. -/

abbrev GoogleOracle := List Char → List Char → List Char → Except Unit (List Char)

def sentinel : List Char := "⚠️ 翻譯失敗".data

/-- Engine routing: `source.startswith('id')` uses the id→zh-TW
singleton, `source.startswith('zh')` the zh-TW→id singleton, anything
else a fresh `GoogleTranslator(source, target)`. -/
def routeGoogle (g : GoogleOracle) (source target text : List Char) :
    Except Unit (List Char) :=
  if ("id".data).isPrefixOf source then g ("id".data) ("zh-TW".data) text
  else if ("zh".data).isPrefixOf source then g ("zh-TW".data) ("id".data) text
  else g source target text

def translate_cached_value (g : GoogleOracle) (source target text : List Char) :
    List Char :=
  match routeGoogle g source target text with
  | .ok v => v
  | .error _ => sentinel

/-! ### `functools.lru_cache(maxsize=2048)` model

Entries most-recently-used first; a hit moves its key to the front, a
miss computes, inserts at the front and keeps at most 2048 entries
(dropping the least recently used).  The third component counts calls to
the wrapped body (i.e. to the external engine). -/

abbrev TKey := List Char × List Char × List Char

def lruFind (k : TKey) : List (TKey × List Char) → Option (List Char)
  | [] => none
  | (k', v) :: rest => if k' = k then some v else lruFind k rest

def lruErase (k : TKey) : List (TKey × List Char) → List (TKey × List Char)
  | [] => []
  | (k', v) :: rest => if k' = k then rest else (k', v) :: lruErase k rest

structure LruCache where
  entries : List (TKey × List Char)

def translate_cached_lru (g : GoogleOracle) (st : LruCache)
    (source target text : List Char) : List Char × LruCache × Nat :=
  let k : TKey := (source, target, text)
  match lruFind k st.entries with
  | some v => (v, ⟨(k, v) :: lruErase k st.entries⟩, 0)
  | none =>
    let v := translate_cached_value g source target text
    (v, ⟨((k, v) :: st.entries).take 2048⟩, 1)

/-! ## Rate limiter (`rate_limited`) -/

def rlFind (k : List Char) : List (List Char × Nat × Nat) → Option (Nat × Nat)
  | [] => none
  | (k', v) :: rest => if k' = k then some v else rlFind k rest

def rlStore (k : List Char) (v : Nat × Nat) :
    List (List Char × Nat × Nat) → List (List Char × Nat × Nat)
  | [] => [(k, v)]
  | (k', v') :: rest =>
    if k' = k then (k, v) :: rest else (k', v') :: rlStore k v rest

/-- `rate_limited(key)` with the store passed explicitly; `limit` is
`RATE_LIMIT` and `now` the current epoch second. -/
def rate_limited (limit : Nat) (store : List (List Char × Nat × Nat))
    (now : Nat) (key : List Char) : Bool × List (List Char × Nat × Nat) :=
  let (count, start) := (rlFind key store).getD (0, now)
  let (count, start) := if 60 ≤ now - start then (0, now) else (count, start)
  if limit ≤ count then (true, store)
  else (false, rlStore key (count + 1, start) store)

/-! ## Pipeline orchestrator (`process_message`)

`Env` packages the external collaborators: `ld` is langdetect (`none`
models `LangDetectException`), `openai = some o` models a configured
OpenAI client whose Responses-API call plus text extraction yields
`o src tgt text` (`Except.error` a raised exception, `.ok` the extracted
string, already stripped by `_extract_text_from_response`), and `google`
the deep-translator engine.  The result carries the returned dict and
the number of external translation calls made (OpenAI plus Google);
spreadsheet logging has no effect on the returned value and is not
modelled. -/

structure Env where
  ld : List Char → Option (List Char)
  openai : Option GoogleOracle
  google : GoogleOracle

inductive Meta where
  | openaiM | googleFallback
deriving DecidableEq, Repr

inductive ProcResult where
  | perror (msg : List Char)
  | idResult (result original_expanded preprocessed : List Char) (meta : Meta)
  | zhResult (result polished_input : List Char) (meta : Meta)
deriving DecidableEq, Repr

/-- `openai_translate`: raises when the client is not configured, calls
the API once otherwise, raises on an empty extraction, and returns the
stripped text.  The second component counts API calls. -/
def runOpenai (client : Option GoogleOracle) (src tgt text : List Char) :
    Option (List Char) × Nat :=
  match client with
  | none => (none, 0)
  | some o =>
    match o src tgt text with
    | .error _ => (none, 1)
    | .ok tr => (if tr.isEmpty then none else some (pyStrip tr), 1)

def emptyInputMsg : List Char := "請輸入有效文字".data
def rateMsg (limit : Nat) : List Char :=
  "速率限制：每 60 秒最多 ".data ++ natToDec limit ++ " 次".data
def detectFailMsg : List Char := "無法偵測語言".data
def unsupportedMsg : List Char := "僅支援中文與印尼文".data

def process_message (env : Env) (limit : Nat)
    (store : List (List Char × Nat × Nat)) (now : Nat)
    (client_key : List Char) (text0 : List Char) :
    ProcResult × Nat × List (List Char × Nat × Nat) :=
  let text := pyStrip text0
  if text.isEmpty then (.perror emptyInputMsg, 0, store)
  else
    let (lim, store) := rate_limited limit store now client_key
    if lim then (.perror (rateMsg limit), 0, store)
    else
      match detect_language env.ld text with
      | none => (.perror detectFailMsg, 0, store)
      | some lang0 =>
        let lang := lowerAll lang0
        if lang = "indonesian".data ∨ ("id".data).isPrefixOf lang then
          let expanded := expand_abbreviations text
          let pre := preprocess_text expanded ("indonesian".data)
          match runOpenai env.openai ("Indonesian".data)
              ("Traditional Chinese".data) pre with
          | (some r, n) =>
            let pr := polish_chinese r
            if pr.isEmpty then
              let base := translate_cached_value env.google ("id".data)
                ("zh-TW".data) pre
              (.idResult (polish_chinese base) expanded pre .googleFallback,
               n + 1, store)
            else (.idResult pr expanded pre .openaiM, n, store)
          | (none, n) =>
            let base := translate_cached_value env.google ("id".data)
              ("zh-TW".data) pre
            (.idResult (polish_chinese base) expanded pre .googleFallback,
             n + 1, store)
        else if lang = "chinese".data ∨ ("zh".data).isPrefixOf lang then
          let polished_in := polish_chinese text
          match runOpenai env.openai ("Traditional Chinese".data)
              ("Indonesian".data) polished_in with
          | (some r, n) =>
            if r.isEmpty then
              let base := translate_cached_value env.google ("zh-TW".data)
                ("id".data) polished_in
              (.zhResult base polished_in .googleFallback, n + 1, store)
            else (.zhResult r polished_in .openaiM, n, store)
          | (none, n) =>
            let base := translate_cached_value env.google ("zh-TW".data)
              ("id".data) polished_in
            (.zhResult base polished_in .googleFallback, n + 1, store)
        else (.perror unsupportedMsg, 0, store)

/-! ## Concrete collaborators used in closed theorems -/

/-- langdetect that always raises (`LangDetectException`). -/
def ldNone : List Char → Option (List Char) := fun _ => none

/-- A Google engine that echoes the submitted text back. -/
def gEcho : GoogleOracle := fun _ _ text => .ok text

/-- A Google engine that always raises. -/
def gFail : GoogleOracle := fun _ _ _ => .error ()

/-- A Google engine that returns the empty string. -/
def gEmpty : GoogleOracle := fun _ _ _ => .ok []

/-- Environment: langdetect raises, no OpenAI client, echoing Google. -/
def env0 : Env := ⟨ldNone, none, gEcho⟩

/-- Canonical `HH:MM`: five characters, `HH` zero-padded in [00,23] and
`MM` zero-padded in [00,59]. -/
def isCanonHHMM (s : List Char) : Bool :=
  match s with
  | [h1, h2, c, m1, m2] =>
    c = ':' && isDigitA h1 && isDigitA h2 && isDigitA m1 && isDigitA m2 &&
    decide (10 * digitVal h1 + digitVal h2 ≤ 23) &&
    decide (10 * digitVal m1 + digitVal m2 ≤ 59)
  | _ => false


/-! ## Supporting lemmas -/

theorem dropWhile_head_not (p : Char → Bool) :
    ∀ (l : List Char) (c : Char), (l.dropWhile p).head? = some c → p c = false := by
  intro l
  induction l with
  | nil => intro c h; simp [List.dropWhile] at h
  | cons a l ih =>
    intro c h
    by_cases hp : p a
    · rw [List.dropWhile_cons, if_pos hp] at h
      exact ih c h
    · rw [List.dropWhile_cons, if_neg hp] at h
      simp only [List.head?_cons, Option.some.injEq] at h
      subst h
      simpa using hp

theorem dropWhile_eq_self_of_head (p : Char → Bool) (l : List Char)
    (h : ∀ c, l.head? = some c → p c = false) : l.dropWhile p = l := by
  cases l with
  | nil => rfl
  | cons a l =>
    rw [List.dropWhile_cons, if_neg]
    simp [h a rfl]

theorem mem_dropWhile_of_not (p : Char → Bool) (c : Char) (hc : p c = false) :
    ∀ (l : List Char), c ∈ l → c ∈ l.dropWhile p := by
  intro l
  induction l with
  | nil => intro h; exact absurd h (List.not_mem_nil c)
  | cons a l ih =>
    intro h
    by_cases hp : p a
    · rw [List.dropWhile_cons, if_pos hp]
      rcases List.mem_cons.1 h with h1 | h1
      · subst h1; rw [hp] at hc; exact absurd hc (by simp)
      · exact ih h1
    · rw [List.dropWhile_cons, if_neg hp]
      exact h

theorem mem_of_mem_dropWhile (p : Char → Bool) (c : Char) :
    ∀ (l : List Char), c ∈ l.dropWhile p → c ∈ l := by
  intro l
  induction l with
  | nil => intro h; simp [List.dropWhile] at h
  | cons a l ih =>
    intro h
    by_cases hp : p a
    · rw [List.dropWhile_cons, if_pos hp] at h
      exact List.mem_cons_of_mem a (ih h)
    · rwa [List.dropWhile_cons, if_neg hp] at h

theorem getLast?_dropWhile (p : Char → Bool) :
    ∀ (l : List Char), l.dropWhile p = [] ∨ (l.dropWhile p).getLast? = l.getLast? := by
  intro l
  induction l with
  | nil => exact Or.inl rfl
  | cons a l ih =>
    by_cases hp : p a
    · rw [List.dropWhile_cons, if_pos hp]
      cases l with
      | nil => exact Or.inl rfl
      | cons b l' =>
        rcases ih with h | h
        · exact Or.inl h
        · exact Or.inr (by rw [h, List.getLast?_cons_cons])
    · rw [List.dropWhile_cons, if_neg hp]
      exact Or.inr rfl

theorem getLast?_reverse' (l : List Char) : l.reverse.getLast? = l.head? := by
  have h := List.head?_reverse l.reverse
  rw [List.reverse_reverse] at h
  exact h.symm

theorem pyStrip_head (s : List Char) (c : Char)
    (h : (pyStrip s).head? = some c) : isPyWS c = false :=
  dropWhile_head_not isPyWS _ c h

theorem pyStrip_getLast (s : List Char) (c : Char)
    (h : (pyStrip s).getLast? = some c) : isPyWS c = false := by
  unfold pyStrip at h
  rcases getLast?_dropWhile isPyWS ((s.reverse.dropWhile isPyWS).reverse) with h0 | h0
  · rw [h0] at h; simp at h
  · rw [h0, getLast?_reverse'] at h
    exact dropWhile_head_not isPyWS _ c h

theorem mem_of_mem_pyStrip (s : List Char) (c : Char) (h : c ∈ pyStrip s) :
    c ∈ s := by
  unfold pyStrip at h
  have h1 := mem_of_mem_dropWhile isPyWS c _ h
  rw [List.mem_reverse] at h1
  have h2 := mem_of_mem_dropWhile isPyWS c _ h1
  rwa [List.mem_reverse] at h2

theorem mem_pyStrip_of_mem (s : List Char) (c : Char) (hws : isPyWS c = false)
    (h : c ∈ s) : c ∈ pyStrip s := by
  unfold pyStrip
  apply mem_dropWhile_of_not isPyWS c hws
  rw [List.mem_reverse]
  apply mem_dropWhile_of_not isPyWS c hws
  rwa [List.mem_reverse]

theorem pyStrip_eq_self (l : List Char)
    (h1 : ∀ c, l.head? = some c → isPyWS c = false)
    (h2 : ∀ c, l.getLast? = some c → isPyWS c = false) : pyStrip l = l := by
  unfold pyStrip
  have e1 : l.reverse.dropWhile isPyWS = l.reverse := by
    apply dropWhile_eq_self_of_head
    intro c hc
    rw [List.head?_reverse] at hc
    exact h2 c hc
  rw [e1, List.reverse_reverse]
  exact dropWhile_eq_self_of_head _ _ h1

theorem pyStrip_idem (s : List Char) : pyStrip (pyStrip s) = pyStrip s := by
  apply pyStrip_eq_self
  · exact pyStrip_head s
  · exact pyStrip_getLast s


theorem occursIn_cons_false (pat c cs) (h : occursIn pat (c :: cs) = false) :
    pat.isPrefixOf (c :: cs) = false ∧ occursIn pat cs = false := by
  rw [occursIn, Bool.or_eq_false_iff] at h
  exact h

theorem replaceAllAux_id (pat rep : List Char) :
    ∀ (n : Nat) (s : List Char), occursIn pat s = false →
      replaceAllAux pat rep n s = s := by
  intro n
  induction n with
  | zero => intro s _; rfl
  | succ n ih =>
    intro s h
    cases s with
    | nil => rfl
    | cons c cs =>
      obtain ⟨h1, h2⟩ := occursIn_cons_false pat c cs h
      rw [replaceAllAux, if_neg, ih cs h2]
      simp [h1]

theorem pyReplace_id (pat rep s : List Char) (h : occursIn pat s = false) :
    pyReplace pat rep s = s :=
  replaceAllAux_id pat rep s.length s h

theorem foldl_pyReplace_id :
    ∀ (prs : List (List Char × List Char)) (y : List Char),
      (∀ kv ∈ prs, occursIn kv.1 y = false) →
      prs.foldl (fun acc kv => pyReplace kv.1 kv.2 acc) y = y := by
  intro prs
  induction prs with
  | nil => intro y _; rfl
  | cons kv prs ih =>
    intro y h
    rw [List.foldl_cons, pyReplace_id kv.1 kv.2 y (h kv (List.mem_cons_self kv prs))]
    exact ih y (fun kv' hm => h kv' (List.mem_cons_of_mem kv hm))

theorem asciiLower_eq_self (c : Char) (h : isAsciiAlpha c = false) :
    asciiLower c = c := by
  rw [isAsciiAlpha, Bool.or_eq_false_iff] at h
  rw [asciiLower, if_neg]
  exact of_decide_eq_false h.2

theorem lowerAll_eq_self (u : List Char)
    (h : ∀ c ∈ u, isAsciiAlpha c = false) : lowerAll u = u := by
  induction u with
  | nil => rfl
  | cons c cs ih =>
    rw [lowerAll, List.map_cons,
        asciiLower_eq_self c (h c (List.mem_cons_self c cs))]
    exact congrArg (c :: ·) (ih (fun c' hm => h c' (List.mem_cons_of_mem c hm)))

theorem letterRunsAux_nil (n : Nat) :
    ∀ (u : List Char), (∀ c ∈ u, isAsciiAlpha c = false) →
      letterRunsAux n u = [] := by
  induction n with
  | zero => intro u _; rfl
  | succ n ih =>
    intro u h
    cases u with
    | nil => rfl
    | cons c cs =>
      rw [letterRunsAux, if_neg]
      · exact ih cs (fun c' hm => h c' (List.mem_cons_of_mem c hm))
      · simp [h c (List.mem_cons_self c cs)]

theorem stripLitCI_none (c : Char) (hc : isAsciiAlpha c = false)
    (l : Char) (ls : List Char) (hl : isAsciiAlpha l = true ∧ asciiLower l = l)
    (cs : List Char) : stripLitCI (l :: ls) (c :: cs) = none := by
  rw [stripLitCI, if_neg]
  rw [asciiLower_eq_self c hc, hl.2]
  intro he
  rw [he, hl.1] at hc
  simp at hc

/-- Every keyword literal is non-empty and starts with a lowercase ASCII
letter. -/
def litsLowerAlpha : List (List Char) → Bool
  | [] => true
  | [] :: _ => false
  | (l :: _) :: rest => isAsciiAlpha l && (asciiLower l == l) && litsLowerAlpha rest

theorem kwMatchHere_false (prev : Option Char) (c : Char) (cs : List Char)
    (hc : isAsciiAlpha c = false) :
    ∀ lits, litsLowerAlpha lits = true →
      kwMatchHere prev (c :: cs) lits = false := by
  intro lits
  induction lits with
  | nil => intro _; rfl
  | cons lit rest ih =>
    intro hl
    cases lit with
    | nil => simp [litsLowerAlpha] at hl
    | cons l ls =>
      rw [litsLowerAlpha, Bool.and_eq_true, Bool.and_eq_true] at hl
      rw [kwMatchHere,
          stripLitCI_none c hc l ls ⟨hl.1.1, by simpa using hl.1.2⟩ cs]
      simpa using ih hl.2

theorem kwSearch_false :
    ∀ (u : List Char), (∀ c ∈ u, isAsciiAlpha c = false) →
      ∀ prev, kwSearch prev u = false := by
  intro u
  induction u with
  | nil => intro _ prev; rfl
  | cons c cs ih =>
    intro h prev
    rw [kwSearch,
        kwMatchHere_false prev c cs (h c (List.mem_cons_self c cs)) kwLits
          (by decide),
        ih (fun c' hm => h c' (List.mem_cons_of_mem c hm)) (some c)]
    rfl

theorem hasCJKbasic_false (u : List Char)
    (h : ∀ c ∈ u, isCJKbasic c = false) : hasCJKbasic u = false := by
  rw [hasCJKbasic]
  rw [List.any_eq_false]
  intro c hm
  simp [h c hm]

/-- On input without ASCII letters and without basic-range CJK
characters, the first three rules of `detect_language` all fail, and the
result is whatever the (failing) langdetect fallback gives. -/
theorem detect_language_none (ld : List Char → Option (List Char))
    (u : List Char)
    (hA : ∀ c ∈ u, isAsciiAlpha c = false)
    (hC : ∀ c ∈ u, isCJKbasic c = false)
    (hld : ld (pyStrip u) = none) :
    detect_language ld u = none := by
  have hmem : ∀ c ∈ pyStrip u, c ∈ u := fun c hm => mem_of_mem_pyStrip u c hm
  have hA' : ∀ c ∈ pyStrip u, isAsciiAlpha c = false :=
    fun c hm => hA c (hmem c hm)
  have hC' : ∀ c ∈ pyStrip u, isCJKbasic c = false :=
    fun c hm => hC c (hmem c hm)
  rw [detect_language]
  by_cases he : (pyStrip u).isEmpty
  · simp [he]
  · rw [if_neg he, if_neg, if_neg, if_neg]
    · rw [hld]
    · rw [lowerAll_eq_self _ hA']
      simp [kwSearch_false _ hA' none]
    · rw [tokensInMap, lowerAll_eq_self _ hA',
          letterRuns, letterRunsAux_nil _ _ hA']
      simp
    · simp [hasCJKbasic_false _ hC']


theorem natDecRev_small (f n : Nat) (hf : 1 ≤ f) (hn : n < 10) :
    natDecRev f n = [digitChar n] := by
  cases f with
  | zero => omega
  | succ f => rw [natDecRev, if_pos hn]

theorem pad2_eq_two (n : Nat) (h : n ≤ 99) :
    pad2 n = [digitChar (n / 10), digitChar (n % 10)] := by
  by_cases hn : n < 10
  · have e : natToDec n = [digitChar n] := by
      rw [natToDec, natDecRev_small (n + 1) n (by omega) hn]
      rfl
    rw [pad2, e]
    have e10 : n / 10 = 0 := Nat.div_eq_of_lt hn
    have em : n % 10 = n := Nat.mod_eq_of_lt hn
    rw [e10, em]
    rfl
  · have e : natToDec n = [digitChar (n / 10), digitChar (n % 10)] := by
      rw [natToDec, natDecRev, if_neg hn,
          natDecRev_small n (n / 10) (by omega) (by omega)]
      rfl
    rw [pad2, e]
    rfl

theorem digitChar_isDigit (k : Nat) (h : k ≤ 9) :
    isDigitA (digitChar k) = true := by
  interval_cases k <;> decide

theorem digitChar_val (k : Nat) (h : k ≤ 9) : digitVal (digitChar k) = k := by
  interval_cases k <;> decide

theorem adjustHour_le (h : Nat) (p : Option Period) : adjustHour h p ≤ 23 := by
  have hm : h % 24 < 24 := Nat.mod_lt h (by omega)
  cases p with
  | none => simp only [adjustHour]; omega
  | some p => simp only [adjustHour]; split <;> split <;> omega


theorem lruFind_some_length (k : TKey) :
    ∀ (l : List (TKey × List Char)) (v : List Char),
      lruFind k l = some v → (lruErase k l).length + 1 = l.length := by
  intro l
  induction l with
  | nil => intro v h; simp [lruFind] at h
  | cons a rest ih =>
    intro v h
    rcases a with ⟨k', v'⟩
    by_cases he : k' = k
    · rw [lruErase, if_pos he]
      simp
    · rw [lruFind, if_neg he] at h
      rw [lruErase, if_neg he]
      have := ih v h
      simp only [List.length_cons]
      omega

theorem polish_of_fixed (y : List Char)
    (hf : polishPairs.foldl (fun acc kv => pyReplace kv.1 kv.2 acc) y = y)
    (ht : endsTerm (pyStrip y) = true) : polish_chinese y = y := by
  have e : polish_chinese y =
      (if endsTerm (pyStrip (polishPairs.foldl
          (fun acc kv => pyReplace kv.1 kv.2 acc) y)) then
        polishPairs.foldl (fun acc kv => pyReplace kv.1 kv.2 acc) y
      else pyStrip (polishPairs.foldl
          (fun acc kv => pyReplace kv.1 kv.2 acc) y) ++ "。".data) := rfl
  rw [e, hf, if_pos ht]

theorem isPyWS_false_of_cjk (c : Char) (h : 0x4e00 ≤ c.toNat) :
    isPyWS c = false := by
  have b : ∀ (w : Char), w.toNat < 0x4e00 → (c == w) = false := by
    intro w hwlt
    rw [beq_eq_false_iff_ne]
    intro he
    rw [he] at h
    omega
  simp [isPyWS, wsChars, List.contains, List.elem,
    b ' ' (by decide), b '\t' (by decide), b '\n' (by decide),
    b '\r' (by decide), b (Char.ofNat 11) (by decide),
    b (Char.ofNat 12) (by decide), b (Char.ofNat 0xa0) (by decide),
    b (Char.ofNat 0x3000) (by decide)]

/-! ## Claims -/

/-- Claim C1 (code bug): the spec's Indonesian branch promises
expand-then-normalize with the intermediate containing the canonical
time `09:00`, but `process_message` pre-expands abbreviations before
`preprocess_text`, and the lexicon maps the time marker `jam` to
`pukul`, so `convert_jam_to_hhmm` never sees its keyword: on
`"udh makan blm jam 9 pagi"` the text handed to the translator is
`"已經 吃 還沒 pukul 9 早上"`, which does not contain `09:00`. -/
theorem c1_preexpansion_defeats_time_normalization :
    process_message env0 30 [] 0 ("k".data) ("udh makan blm jam 9 pagi".data) =
      (ProcResult.idResult ("已經 吃 還沒 pukul 9 早上。".data)
        ("已經 吃 還沒 pukul 9 早上".data) ("已經 吃 還沒 pukul 9 早上".data)
        Meta.googleFallback, 1, [("k".data, 1, 0)]) ∧
    occursIn ("09:00".data) ("已經 吃 還沒 pukul 9 早上".data) = false := by
  decide

/-- Claim C2: the four specified equations of the time normalizer hold:
`jam 9 ↦ 09:00`, `jam 3 sore ↦ 15:00`, `jam 9.5 ↦ 09:30` (decimal
minutes as fraction of an hour) and `jam 12 pagi ↦ 00:00`. -/
theorem c2_normalize_time_examples :
    convert_jam_to_hhmm ("jam 9".data) = "09:00".data ∧
    convert_jam_to_hhmm ("jam 3 sore".data) = "15:00".data ∧
    convert_jam_to_hhmm ("jam 9.5".data) = "09:30".data ∧
    convert_jam_to_hhmm ("jam 12 pagi".data) = "00:00".data := by
  decide

/-- Claim C3, counterexample: an explicit minute field greater than 59
is echoed into the output, so the replacement for `"jam 9:99"` is
`"09:99"`, which is not canonical `HH:MM` with `MM ∈ [00,59]`. -/
theorem c3_minute_overflow_cex :
    convert_jam_to_hhmm ("jam 9:99".data) = "09:99".data ∧
    isCanonHHMM ("09:99".data) = false := by
  decide

/-- Claim C3, amended: every replacement is `to_24 h m period`; its hour
is always zero-padded in [00,23], and whenever the parsed minute is at
most 59 the replacement is canonical `HH:MM` (`HH` in [00,23], `MM` in
[00,59], both zero-padded).  A minute field above 59 (e.g. `jam 9:99`)
is echoed unchecked. -/
theorem c3_to24_canonical_of_minute_le (h m : Nat) (p : Option Period)
    (hm : m ≤ 59) : isCanonHHMM (to_24 h m p) = true := by
  have hA : adjustHour h p ≤ 23 := adjustHour_le h p
  have h1 : adjustHour h p / 10 ≤ 9 := by omega
  have h2 : adjustHour h p % 10 ≤ 9 := by omega
  have h3 : m / 10 ≤ 9 := by omega
  have h4 : m % 10 ≤ 9 := by omega
  rw [to_24, pad2_eq_two (adjustHour h p) (by omega), pad2_eq_two m (by omega)]
  simp only [List.cons_append, List.nil_append, isCanonHHMM]
  simp only [digitChar_isDigit _ h1, digitChar_isDigit _ h2,
    digitChar_isDigit _ h3, digitChar_isDigit _ h4,
    digitChar_val _ h1, digitChar_val _ h2, digitChar_val _ h3,
    digitChar_val _ h4]
  simp only [Bool.and_eq_true, decide_eq_true_eq, and_true, true_and]
  omega

/-- Witness for C3's amended theorem at `to_24 7 5 sore`. -/
theorem c3_to24_canonical_witness :
    isCanonHHMM (to_24 7 5 (some Period.sore)) = true :=
  c3_to24_canonical_of_minute_le 7 5 (some Period.sore) (by decide)

/-- Claim C4, counterexample: `polish` is not idempotent: the phrase
rule `是啊姐姐 ↦ 好的姐姐。` produces text containing the earlier pattern
`好的`, which fires on re-polishing. -/
theorem c4_polish_not_idempotent_cex :
    polish_chinese ("是啊姐姐".data) = "好的姐姐。".data ∧
    polish_chinese (polish_chinese ("是啊姐姐".data)) = "好。姐姐。".data ∧
    polish_chinese (polish_chinese ("是啊姐姐".data)) ≠
      polish_chinese ("是啊姐姐".data) := by
  decide

/-- Claim C4, amended: re-polishing never double-appends terminal
punctuation — `polish (polish x) = polish x` holds whenever no phrase
pattern of `chinese_polish_map` occurs in `polish x`; in general a
replacement may reintroduce an earlier pattern (see the
counterexample), so unconditional idempotence fails. -/
theorem c4_polish_idempotent_of_no_pattern (x : List Char)
    (h : ∀ kv ∈ polishPairs, occursIn kv.1 (polish_chinese x) = false) :
    polish_chinese (polish_chinese x) = polish_chinese x := by
  apply polish_of_fixed
  · exact foldl_pyReplace_id polishPairs (polish_chinese x) h
  · have e : polish_chinese x =
        (if endsTerm (pyStrip (polishPairs.foldl
            (fun acc kv => pyReplace kv.1 kv.2 acc) x)) then
          polishPairs.foldl (fun acc kv => pyReplace kv.1 kv.2 acc) x
        else pyStrip (polishPairs.foldl
            (fun acc kv => pyReplace kv.1 kv.2 acc) x) ++ "。".data) := rfl
    by_cases hb : endsTerm (pyStrip (polishPairs.foldl
        (fun acc kv => pyReplace kv.1 kv.2 acc) x)) = true
    · rw [e, if_pos hb]
      exact hb
    · rw [e, if_neg hb]
      have hfix : pyStrip (pyStrip (polishPairs.foldl
          (fun acc kv => pyReplace kv.1 kv.2 acc) x) ++ "。".data) =
          pyStrip (polishPairs.foldl
            (fun acc kv => pyReplace kv.1 kv.2 acc) x) ++ "。".data := by
        apply pyStrip_eq_self
        · intro c hc
          cases hu : pyStrip (polishPairs.foldl
              (fun acc kv => pyReplace kv.1 kv.2 acc) x) with
          | nil =>
            rw [hu] at hc
            have hc2 : '。' = c := by simpa using hc
            rw [← hc2]
            decide
          | cons a u =>
            rw [hu] at hc
            have hc2 : a = c := by simpa using hc
            rw [← hc2]
            exact pyStrip_head _ a (by rw [hu]; rfl)
        · intro c hc
          have e1 : ("。".data : List Char) = ['。'] := rfl
          rw [e1, List.getLast?_concat] at hc
          have hc2 : '。' = c := by simpa using hc
          rw [← hc2]
          decide
      rw [hfix]
      have e1 : ("。".data : List Char) = ['。'] := rfl
      rw [endsTerm, e1, List.getLast?_concat]
      decide

/-- Witness for C4's amended theorem at `x = "嗯"`. -/
theorem c4_polish_idempotent_witness :
    polish_chinese (polish_chinese ("嗯".data)) = polish_chinese ("嗯".data) :=
  c4_polish_idempotent_of_no_pattern ("嗯".data) (by decide)

/-- Claim C5: the expander replaces only whole-word, case-insensitive
matches, preferring the longest surface form (`sm2` is not partially
rewritten via `sm`), and text between matched tokens (spacing,
punctuation) is left unchanged; no match happens inside a longer word. -/
theorem c5_expander_whole_word_longest_match :
    expand_abbreviations ("sm2".data) = "sama-sama".data ∧
    expand_abbreviations ("SM2".data) = "sama-sama".data ∧
    expand_abbreviations ("udh makan blm".data) = "已經 吃 還沒".data ∧
    expand_abbreviations ("udh  makan,blm!".data) = "已經  吃,還沒!".data ∧
    expand_abbreviations ("asm2b".data) = "asm2b".data := by
  decide

/-- Claim C6: the expander runs in a single pass: a substituted
canonical form is never re-matched — `t` expands to `tidur` (not to the
expansion `睡覺` of the surface form `tidur`). -/
theorem c6_expander_single_pass :
    expand_abbreviations ("t".data) = "tidur".data ∧
    expand_abbreviations ("tidur".data) = "睡覺".data ∧
    expand_abbreviations ("t t".data) = "tidur tidur".data := by
  decide

/-- Claim C7, counterexample: `detect_language` only tests the basic
CJK block U+4E00–U+9FFF; `"㐀㐀 saya"` contains two Extension-A
ideographs yet is classified `indonesian` (via the lexicon rule), not
`chinese`. -/
theorem c7_extension_cjk_cex :
    List.countP isCJKideo ("㐀㐀 saya".data) = 2 ∧
    detect_language ldNone ("㐀㐀 saya".data) = some ("indonesian".data) ∧
    ("indonesian".data : List Char) ≠ "chinese".data := by
  decide

/-- Claim C7, amended: for every text containing at least one ideograph
of the basic CJK Unified block U+4E00–U+9FFF (so in particular any text
with two or more of them), the classifier returns `chinese` regardless
of the rest of the text; Extension-block ideographs are not counted. -/
theorem c7_basic_cjk_chinese (ld : List Char → Option (List Char))
    (s : List Char) (c : Char) (hc : c ∈ s) (hcjk : isCJKbasic c = true) :
    detect_language ld s = some ("chinese".data) := by
  have hws : isPyWS c = false := by
    apply isPyWS_false_of_cjk
    rw [isCJKbasic, decide_eq_true_eq] at hcjk
    exact hcjk.1
  have hmem2 : c ∈ pyStrip s := mem_pyStrip_of_mem s c hws hc
  have hne : (pyStrip s).isEmpty = false := by
    cases hp : pyStrip s with
    | nil => rw [hp] at hmem2; exact absurd hmem2 (List.not_mem_nil c)
    | cons a u => rfl
  have hcj : hasCJKbasic (pyStrip s) = true := by
    rw [hasCJKbasic, List.any_eq_true]
    exact ⟨c, hmem2, hcjk⟩
  simp [detect_language, hne, hcj]

/-- Witness for C7's amended theorem at `"你好"`. -/
theorem c7_basic_cjk_chinese_witness :
    detect_language ldNone ("你好".data) = some ("chinese".data) :=
  c7_basic_cjk_chinese ldNone ("你好".data) '你' (by decide) (by decide)

/-- Claim C8, counterexample: an empty string returned by the provider
is passed through as a (vacuous) success value, not converted to the
sentinel, contradicting "an empty-string translation is also treated as
an error". -/
theorem c8_empty_translation_cex :
    translate_cached_value gEmpty ("id".data) ("zh-TW".data) ("halo".data) =
      [] ∧ ([] : List Char) ≠ sentinel := by
  decide

/-- Claim C8, amended: the dispatcher is total (never raises): on any
provider exception it returns the fixed sentinel `⚠️ 翻譯失敗`, and any
value the provider returns — including the empty string — is passed
through unchanged. -/
theorem c8_dispatcher_sentinel_or_value (g : GoogleOracle)
    (source target text : List Char) :
    (routeGoogle g source target text = Except.error () →
      translate_cached_value g source target text = sentinel) ∧
    ∀ v, routeGoogle g source target text = Except.ok v →
      translate_cached_value g source target text = v := by
  constructor
  · intro h
    simp [translate_cached_value, h]
  · intro v h
    simp [translate_cached_value, h]

/-- Witness for C8's amended theorem: a raising engine yields the
sentinel; an empty-success engine yields the empty string. -/
theorem c8_dispatcher_witness :
    translate_cached_value gFail ("id".data) ("zh-TW".data) ("x".data) =
      sentinel ∧
    translate_cached_value gEmpty ("id".data) ("zh-TW".data) ("x".data) =
      [] :=
  ⟨(c8_dispatcher_sentinel_or_value gFail ("id".data) ("zh-TW".data)
      ("x".data)).1 rfl,
   (c8_dispatcher_sentinel_or_value gEmpty ("id".data) ("zh-TW".data)
      ("x".data)).2 [] rfl⟩

/-- Claim C9: for any cache state, two identical calls invoke the
external provider at most once in total (the first call at most once,
the second never); the second call returns the first call's value; and
the LRU cache (capacity 2048, most-recent first, evicting the least
recently used) never exceeds 2048 entries. -/
theorem c9_lru_single_provider_call (g : GoogleOracle) (st : LruCache)
    (source target text : List Char) :
    (translate_cached_lru g st source target text).2.2 ≤ 1 ∧
    (translate_cached_lru g
      (translate_cached_lru g st source target text).2.1
      source target text).2.2 = 0 ∧
    (translate_cached_lru g
      (translate_cached_lru g st source target text).2.1
      source target text).1 =
      (translate_cached_lru g st source target text).1 ∧
    (st.entries.length ≤ 2048 →
      (translate_cached_lru g st source target text).2.1.entries.length
        ≤ 2048 ∧
      (translate_cached_lru g
        (translate_cached_lru g st source target text).2.1
        source target text).2.1.entries.length ≤ 2048) := by
  cases hf : lruFind (source, target, text) st.entries with
  | some v =>
    have e1 : translate_cached_lru g st source target text =
        (v, ⟨((source, target, text), v) ::
          lruErase (source, target, text) st.entries⟩, 0) := by
      simp [translate_cached_lru, hf]
    have hf2 : lruFind (source, target, text)
        (((source, target, text), v) ::
          lruErase (source, target, text) st.entries) = some v := by
      simp [lruFind]
    have e2 : translate_cached_lru g
        (⟨((source, target, text), v) ::
          lruErase (source, target, text) st.entries⟩ : LruCache)
        source target text =
        (v, ⟨((source, target, text), v) ::
          lruErase (source, target, text) st.entries⟩, 0) := by
      simp [translate_cached_lru, hf2, lruErase]
    rw [e1]
    simp only at e2 ⊢
    rw [e2]
    refine ⟨by omega, rfl, rfl, ?_⟩
    intro hlen
    have hl := lruFind_some_length (source, target, text) st.entries v hf
    constructor <;> · simp only [List.length_cons]; omega
  | none =>
    have e1 : translate_cached_lru g st source target text =
        (translate_cached_value g source target text,
         ⟨((source, target, text),
            translate_cached_value g source target text) ::
           st.entries.take 2047⟩, 1) := by
      simp [translate_cached_lru, hf]
    have hf2 : lruFind (source, target, text)
        (((source, target, text),
           translate_cached_value g source target text) ::
          st.entries.take 2047) =
        some (translate_cached_value g source target text) := by
      simp [lruFind]
    have e2 : translate_cached_lru g
        (⟨((source, target, text),
            translate_cached_value g source target text) ::
           st.entries.take 2047⟩ : LruCache)
        source target text =
        (translate_cached_value g source target text,
         ⟨((source, target, text),
            translate_cached_value g source target text) ::
           st.entries.take 2047⟩, 0) := by
      simp [translate_cached_lru, hf2, lruErase]
    rw [e1]
    simp only at e2 ⊢
    rw [e2]
    refine ⟨by omega, rfl, rfl, ?_⟩
    intro _
    have hl : (st.entries.take 2047).length ≤ 2047 := by
      rw [List.length_take]
      omega
    constructor <;> · simp only [List.length_cons]; omega

/-- Witness for C9 at the empty cache with an echoing engine. -/
theorem c9_lru_single_provider_call_witness :
    (translate_cached_lru gEcho
      (translate_cached_lru gEcho ⟨[]⟩ ("id".data) ("zh-TW".data)
        ("halo".data)).2.1
      ("id".data) ("zh-TW".data) ("halo".data)).2.2 = 0 ∧
    (translate_cached_lru gEcho ⟨[]⟩ ("id".data) ("zh-TW".data)
      ("halo".data)).2.1.entries.length ≤ 2048 := by
  have h := c9_lru_single_provider_call gEcho ⟨[]⟩ ("id".data)
    ("zh-TW".data) ("halo".data)
  exact ⟨h.2.1, (h.2.2.2 (by decide)).1⟩

/-- Claim C10, counterexample: pure-punctuation input is not caught by
the emptiness check; with langdetect raising, `process_message "!!!"`
returns the detection-failure error `無法偵測語言`, not the EmptyInput
error `請輸入有效文字` (no translation call is made either way). -/
theorem c10_pure_punctuation_cex :
    process_message env0 30 [] 0 ("k".data) ("!!!".data) =
      (ProcResult.perror detectFailMsg, 0, [("k".data, 1, 0)]) ∧
    detectFailMsg ≠ emptyInputMsg := by
  decide

/-- Claim C10, amended: input that is empty after trimming yields the
EmptyInput error `請輸入有效文字` with no translation call; input that
is non-empty but consists purely of punctuation (no ASCII letters, no
basic-CJK ideographs) passes the emptiness check and instead yields the
detection-failure error `無法偵測語言` when langdetect raises — also
with no translation call. -/
theorem c10_empty_and_punct_errors :
    (∀ (env : Env) (limit : Nat)
        (store : List (List Char × Nat × Nat)) (now : Nat)
        (key s : List Char), pyStrip s = [] →
        process_message env limit store now key s =
          (ProcResult.perror emptyInputMsg, 0, store)) ∧
    (∀ (env : Env) (limit : Nat)
        (store : List (List Char × Nat × Nat)) (now : Nat)
        (key s : List Char), pyStrip s ≠ [] →
        (∀ c ∈ s, isAsciiAlpha c = false ∧ isCJKbasic c = false) →
        env.ld (pyStrip s) = none →
        (rate_limited limit store now key).1 = false →
        process_message env limit store now key s =
          (ProcResult.perror detectFailMsg, 0,
            (rate_limited limit store now key).2)) := by
  constructor
  · intro env limit store now key s hs
    simp [process_message, hs]
  · intro env limit store now key s hne hch hld hrl
    have hdet : detect_language env.ld (pyStrip s) = none := by
      apply detect_language_none
      · intro c hm
        exact (hch c (mem_of_mem_pyStrip s c hm)).1
      · intro c hm
        exact (hch c (mem_of_mem_pyStrip s c hm)).2
      · rw [pyStrip_idem]
        exact hld
    have hie : (pyStrip s).isEmpty = false := by
      cases hp : pyStrip s with
      | nil => exact absurd hp hne
      | cons a u => rfl
    rcases hq : rate_limited limit store now key with ⟨lim, store2⟩
    rw [hq] at hrl
    simp only at hrl
    subst hrl
    simp [process_message, hie, hq, hdet]

/-- Witness for C10 at whitespace-only and pure-punctuation inputs. -/
theorem c10_empty_and_punct_witness :
    process_message env0 30 [] 0 ("k".data) ("  ".data) =
      (ProcResult.perror emptyInputMsg, 0, []) ∧
    process_message env0 30 [] 0 ("k".data) ("?!".data) =
      (ProcResult.perror detectFailMsg, 0, [("k".data, 1, 0)]) := by
  constructor
  · exact c10_empty_and_punct_errors.1 env0 30 [] 0 ("k".data) ("  ".data)
      (by decide)
  · have h := c10_empty_and_punct_errors.2 env0 30 [] 0 ("k".data)
      ("?!".data) (by decide) (by decide) (by decide) (by decide)
    exact h.trans (by decide)

end LineBot
